import Mathlib

/-!
Verification of the weather-monitoring core of `app.py` against its
natural-language specification.

The Python source keeps three pieces of session state: `weather_data` (a
DataFrame of per-city readings), `daily_summaries`, and `alerts`.  We embed
a DataFrame row as the structure `Obs`, the frame as a `List Obs` in row
(insertion) order, and each of the four core operations
(`update_weather_data`, `calculate_daily_summary`, `check_alerts`,
`fetch_weather_data`) as a pure function over that state.  Numeric fields
are modelled as rationals, timestamps as integers.
-/
set_option autoImplicit false

namespace WeatherApp



/-- One row of `st.session_state.weather_data`: the dict built by
`fetch_weather_data` in app.py (fields in source order). -/
structure Obs where
  city : String
  main : String
  description : String
  temp : ℚ
  feels_like : ℚ
  humidity : ℚ
  pressure : ℚ
  wind_speed : ℚ
  dt : ℤ
  deriving DecidableEq, Repr

/-- The dedup key used by `drop_duplicates(subset=[..])` in
`update_weather_data`: the column pair `(city, dt)`. -/
def obsKey (o : Obs) : String × ℤ := (o.city, o.dt)

/-- The keys of the `CITIES` dict in app.py, in dict (insertion) order;
the geocoordinates are used only by the excluded map rendering. -/
def CITIES : List String :=
  ["Delhi", "Mumbai", "Chennai", "Bangalore", "Kolkata", "Hyderabad"]

/-- Generic engine for pandas `drop_duplicates(subset=...)` with the default
`keep=first`: scan left to right, keep a row only when its key has not been
seen before.  `seen` is the accumulator of keys already kept. -/
def dedupByAux {α β : Type} [DecidableEq β] (key : α → β) :
    List α → List β → List α
  | [], _ => []
  | a :: rest, seen =>
    if key a ∈ seen then dedupByAux key rest seen
    else a :: dedupByAux key rest (key a :: seen)

/-- Pandas `drop_duplicates` keeping the first occurrence of each key. -/
def dedupBy {α β : Type} [DecidableEq β] (key : α → β) (l : List α) : List α :=
  dedupByAux key l []

/-- The merge step of `update_weather_data` in app.py: if the freshly
fetched frame is non-empty, `pd.concat` it onto the stored frame and
`drop_duplicates(subset=[city, dt])` in place; an empty fetch leaves the
stored frame untouched. -/
def addReadings (store newData : List Obs) : List Obs :=
  if newData.isEmpty then store else dedupBy obsKey (store ++ newData)

/-- Lexicographic comparison of the character lists of two strings; this is
the order pandas uses when `groupby` sorts string group keys. -/
def charListLe : List Char → List Char → Bool
  | [], _ => true
  | _ :: _, [] => false
  | a :: as, b :: bs =>
    if a.toNat < b.toNat then true
    else if b.toNat < a.toNat then false
    else charListLe as bs

/-- String order for sorted `groupby` keys. -/
def strLe (a b : String) : Bool := charListLe a.data b.data

/-- Insert an element in front of the first entry it may precede; used to
embed the (stable) sort that pandas applies to group keys and to
`value_counts` results. -/
def insertSorted {α : Type} (le : α → α → Bool) (x : α) : List α → List α
  | [] => [x]
  | y :: rest => if le x y then x :: y :: rest else y :: insertSorted le x rest

/-- Stable insertion sort: an element placed before every later element it
compares `le` to, so original order is kept among `le`-ties. -/
def insSort {α : Type} (le : α → α → Bool) : List α → List α
  | [] => []
  | x :: rest => insertSorted le x (insSort le rest)

/-- Last stored row whose `city` column equals `c`; this is what
`groupby(city).last()` produces for the group `c` (no column is ever NaN
here, so per-column last equals the last row of the group). -/
def lastForCity (store : List Obs) (c : String) : Option Obs :=
  (store.filter (fun o => o.city = c)).getLast?

/-- The view `weather_data.groupby(city).last().reset_index()` as used by
`check_alerts` (line 119) and `main` (line 211): one row per city present
in the frame, the last row of each group, group keys in sorted order. -/
def latestPerCity (store : List Obs) : List Obs :=
  (insSort strLe (dedupBy id (store.map Obs.city))).filterMap (lastForCity store)

/-- Calendar date of a timestamp, embedding `daily_data.index.date`: the
day number containing the instant.  Only the induced partition matters to
the spec claims, never the concrete day arithmetic. -/
def obsDate (o : Obs) : ℤ := o.dt / 86400

/-- The `groupby([daily_data.index.date, city])` key of a row. -/
def summaryKey (o : Obs) : ℤ × String := (obsDate o, o.city)

/-- Order on summary keys: date first, then city, as pandas sorts the
grouped keys. -/
def keyLe (a b : ℤ × String) : Bool :=
  if a.1 < b.1 then true else if b.1 < a.1 then false else strLe a.2 b.2

/-- Maximum of a list of rationals (pandas `max` aggregation; the empty
case never arises since groups are non-empty). -/
def qmax : List ℚ → ℚ
  | [] => 0
  | a :: rest => rest.foldl max a

/-- Minimum of a list of rationals (pandas `min` aggregation). -/
def qmin : List ℚ → ℚ
  | [] => 0
  | a :: rest => rest.foldl min a

/-- Mean of a list of rationals (pandas `mean` aggregation). -/
def qavg (l : List ℚ) : ℚ := l.sum / l.length

/-- Pandas `x.value_counts()` on a Series of condition strings: distinct values in
order of first appearance (pandas tracks first-seen key order), each paired
with its count, then stably sorted by count descending. -/
def valueCounts (l : List String) : List (String × ℕ) :=
  insSort (fun a b => decide (b.2 ≤ a.2))
    ((dedupBy id l).map (fun s => (s, l.count s)))

/-- The aggregation `lambda x: x.value_counts().index[0]` from `calculate_daily_summary`:
head key of the sorted counts. -/
def dominantWeather (l : List String) : Option String :=
  ((valueCounts l).map Prod.fst).head?

/-- One row of `st.session_state.daily_summaries`, with the column names
assigned at line 112 of app.py. -/
structure SummaryRow where
  date : ℤ
  city : String
  avg_temp : ℚ
  max_temp : ℚ
  min_temp : ℚ
  avg_humidity : ℚ
  avg_wind_speed : ℚ
  dominant_weather : String
  deriving DecidableEq, Repr

/-- The aggregation record of `calculate_daily_summary` for one group key:
mean, max and min temperature, mean humidity, mean wind speed, and the
dominant condition of the rows in that (date, city) group. -/
def mkSummaryRow (store : List Obs) (k : ℤ × String) : SummaryRow :=
  let g := store.filter (fun o => summaryKey o = k)
  { date := k.1
    city := k.2
    avg_temp := qavg (g.map Obs.temp)
    max_temp := qmax (g.map Obs.temp)
    min_temp := qmin (g.map Obs.temp)
    avg_humidity := qavg (g.map Obs.humidity)
    avg_wind_speed := qavg (g.map Obs.wind_speed)
    dominant_weather := (dominantWeather (g.map Obs.main)).getD "" }

/-- The sorted list of distinct `(date, city)` group keys of the frame. -/
def summaryKeys (store : List Obs) : List (ℤ × String) :=
  insSort keyLe (dedupBy id (store.map summaryKey))

/-- Function `calculate_daily_summary` of app.py as a function of the observation
frame and the previous `daily_summaries` state: on an empty frame it
returns early leaving the summaries untouched, otherwise it overwrites
them with one aggregated row per `(date, city)` group. -/
def calculate_daily_summary (store : List Obs) (prev : List SummaryRow) :
    List SummaryRow :=
  if store.isEmpty then prev
  else (summaryKeys store).map (mkSummaryRow store)

/-- The `thresholds` dict assembled in `main` from the sidebar inputs; the
three numeric inputs are integers there. -/
structure Thresholds where
  temp : ℤ
  humidity : ℤ
  wind_speed : ℤ
  condition : String
  deriving DecidableEq, Repr

/-- One entry of `st.session_state.alerts`.  Each f-string message of
`check_alerts` is determined by its kind and the interpolated values, so an
alert is embedded as the kind plus those values; `renderAlert` below
recovers the exact message text. -/
inductive Alert where
  | temperature (city : String) (threshold : ℤ) (current : ℚ)
  | humidity (city : String) (threshold : ℤ) (current : ℚ)
  | wind (city : String) (threshold : ℤ) (current : ℚ)
  | condition (condition : String) (city : String)
  deriving DecidableEq, Repr

/-- Round to the nearest integer, ties to even: the rounding of a Python
float format with one decimal digit. -/
def roundHalfEven (q : ℚ) : ℤ :=
  let f : ℤ := q.num.fdiv q.den
  if q - f < 1 / 2 then f
  else if 1 / 2 < q - f then f + 1
  else if f % 2 = 0 then f else f + 1

/-- Python one-decimal float formatting of a number. -/
def fmt1 (q : ℚ) : String :=
  let n := roundHalfEven (q * 10)
  let s := if n < 0 then "-" else ""
  s ++ toString (n.natAbs / 10) ++ "." ++ toString (n.natAbs % 10)

/-- Plain `str` rendering of a numeric cell in an f-string; integral values
print without a fractional part (abstracts the Python numeric repr). -/
def renderNum (q : ℚ) : String :=
  if q.den = 1 then toString q.num else toString q

/-- The exact alert message texts of `check_alerts` (lines 123, 126, 129,
132 of app.py). -/
def renderAlert : Alert → String
  | .temperature c thr cur =>
      "🌡️ Alert: Temperature in " ++ c ++ " exceeded " ++ toString thr ++
        "°C. Current temperature: " ++ fmt1 cur ++ "°C"
  | .humidity c thr cur =>
      "💧 Alert: Humidity in " ++ c ++ " exceeded " ++ toString thr ++
        "%. Current humidity: " ++ renderNum cur ++ "%"
  | .wind c thr cur =>
      "🌬️ Alert: Wind speed in " ++ c ++ " exceeded " ++ toString thr ++
        " m/s. Current wind speed: " ++ renderNum cur ++ " m/s"
  | .condition cond c =>
      "🌤️ Alert: " ++ cond ++ " weather detected in " ++ c ++ "."

/-- The four threshold tests of the `check_alerts` loop body, in source
order, for one row of the latest-per-city frame. -/
def cityAlerts (t : Thresholds) (row : Obs) : List Alert :=
  (if row.temp > (t.temp : ℚ) then
      [Alert.temperature row.city t.temp row.temp] else []) ++
  (if row.humidity > (t.humidity : ℚ) then
      [Alert.humidity row.city t.humidity row.humidity] else []) ++
  (if row.wind_speed > (t.wind_speed : ℚ) then
      [Alert.wind row.city t.wind_speed row.wind_speed] else []) ++
  (if row.main = t.condition then
      [Alert.condition t.condition row.city] else [])

/-- Function `check_alerts` of app.py: on an empty frame it returns early; otherwise
it iterates the latest-per-city rows and appends each triggered alert to
the running alert log. -/
def check_alerts (t : Thresholds) (store : List Obs) (log : List Alert) :
    List Alert :=
  if store.isEmpty then log
  else log ++ (latestPerCity store).flatMap (cityAlerts t)

/-- The `weather` array entries of an OpenWeatherMap JSON payload; absent
keys are `none`. -/
structure WeatherItem where
  main : Option String
  description : Option String
  deriving DecidableEq, Repr

/-- The `main` block of the payload. -/
structure MainBlock where
  temp : Option ℚ
  feels_like : Option ℚ
  humidity : Option ℚ
  pressure : Option ℚ
  deriving DecidableEq, Repr

/-- The `wind` block of the payload. -/
structure WindBlock where
  speed : Option ℚ
  deriving DecidableEq, Repr

/-- A decoded provider JSON payload: every key the code reads, each
possibly absent. -/
structure Payload where
  weather : Option (List WeatherItem)
  main : Option MainBlock
  wind : Option WindBlock
  dt : Option ℤ
  deriving DecidableEq, Repr

/-- The dict construction of `fetch_weather_data` (lines 71 to 83 of
app.py) from a decoded payload: each `data.get` chain is an `Option.getD`
with the default written in the source, and a missing `dt` falls back to
the current time `now`.  `data.get(weather, [, {, }, ])[0]` indexes the
head of the weather array; on a present but empty array that raises an
IndexError which no handler catches, embedded here as `none`. -/
def buildObs (city : String) (now : ℤ) (p : Payload) : Option Obs :=
  match (p.weather.getD [{ main := none, description := none }]).head? with
  | none => none
  | some w =>
    let mb := p.main.getD { temp := none, feels_like := none,
                            humidity := none, pressure := none }
    some
      { city := city
        main := w.main.getD "Unknown"
        description := w.description.getD "Unknown"
        temp := mb.temp.getD 0
        feels_like := mb.feels_like.getD 0
        humidity := mb.humidity.getD 0
        pressure := mb.pressure.getD 0
        wind_speed := ((p.wind.getD { speed := none }).speed).getD 0
        dt := p.dt.getD now }

/-- The fetch loop of `update_weather_data`: one `fetch_weather_data` call
per configured city, collecting the returned dicts of the successful calls
in loop order (`fetch c = none` is the caught RequestException branch that
returns None). -/
def runCycleNewData (fetch : String → Option Obs) : List String → List Obs
  | [] => []
  | c :: rest =>
    match fetch c with
    | some d => d :: runCycleNewData fetch rest
    | none => runCycleNewData fetch rest

/-- The cities whose fetch failed during the loop, in loop order: these are
exactly the cities for which `fetch_weather_data` displays an
`st.error` message and returns None. -/
def runCycleFailures (fetch : String → Option Obs) : List String → List String
  | [] => []
  | c :: rest =>
    match fetch c with
    | some _ => runCycleFailures fetch rest
    | none => c :: runCycleFailures fetch rest

/-- Function `update_weather_data` of app.py over an explicit provider: fetch every
configured city once, merge the successful batch into the stored frame,
and surface the per-city failures. -/
def update_weather_data (fetch : String → Option Obs) (cityList : List String)
    (store : List Obs) : List Obs × List String :=
  (addReadings store (runCycleNewData fetch cityList),
   runCycleFailures fetch cityList)

/-- A reading stored first, with the greater timestamp. -/
def c1CexEarly : Obs :=
  { city := "Delhi", main := "Clear", description := "clear sky", temp := 30,
    feels_like := 30, humidity := 40, pressure := 1010, wind_speed := 2,
    dt := 200000 }

/-- A reading for the same city merged later, with a smaller timestamp. -/
def c1CexLate : Obs :=
  { city := "Delhi", main := "Rain", description := "light rain", temp := 28,
    feels_like := 28, humidity := 60, pressure := 1005, wind_speed := 3,
    dt := 100000 }

/-- A store reached by two merges from the empty frame whose later Delhi
row carries the smaller `dt`. -/
def c1CexStore : List Obs := addReadings (addReadings [] [c1CexEarly]) [c1CexLate]

/-- A single stored Mumbai reading. -/
def c1WitObs : Obs :=
  { city := "Mumbai", main := "Clouds", description := "few clouds",
    temp := 31, feels_like := 33, humidity := 70, pressure := 1008,
    wind_speed := 4, dt := 300000 }

/-! ### Alert counting -/
/-- Is this the temperature alert of city `c`? -/
def isTempAlertFor (c : String) : Alert → Bool
  | .temperature c2 _ _ => c2 == c
  | _ => false

/-- Is this the humidity alert of city `c`? -/
def isHumidAlertFor (c : String) : Alert → Bool
  | .humidity c2 _ _ => c2 == c
  | _ => false

/-- Is this the wind alert of city `c`? -/
def isWindAlertFor (c : String) : Alert → Bool
  | .wind c2 _ _ => c2 == c
  | _ => false

/-- The alert thresholds of the C6 witness. -/
def c6T : Thresholds :=
  { temp := 35, humidity := 80, wind_speed := 10, condition := "Rain" }

/-- The Mumbai reading of the C6 witness: 36 degrees against a threshold
of 35. -/
def c6Obs : Obs :=
  { city := "Mumbai", main := "Haze", description := "haze", temp := 36,
    feels_like := 38, humidity := 60, pressure := 1009, wind_speed := 4,
    dt := 400000 }

/-- The alert thresholds of the C10 witness. -/
def c10T : Thresholds :=
  { temp := 30, humidity := 70, wind_speed := 5, condition := "Snow" }

/-- A reading sitting exactly on all three numeric thresholds. -/
def c10Obs : Obs :=
  { city := "Delhi", main := "Clear", description := "clear sky", temp := 30,
    feels_like := 31, humidity := 70, pressure := 1012, wind_speed := 5,
    dt := 500000 }

/-- The successful reading the C8 witness provider returns for a city. -/
def c8Success (c : String) : Obs :=
  { city := c, main := "Clear", description := "clear sky", temp := 30,
    feels_like := 30, humidity := 50, pressure := 1010, wind_speed := 3,
    dt := 600000 }

/-- A provider failing exactly for Chennai. -/
def c8Fetch (c : String) : Option Obs :=
  if c = "Chennai" then none else some (c8Success c)

/-- A payload whose `weather` key is present but holds an empty array. -/
def c9EmptyWeather : Payload :=
  { weather := some [], main := none, wind := none, dt := none }

/-- A payload with every key the code reads missing. -/
def c9AllMissing : Payload :=
  { weather := none, main := none, wind := none, dt := none }

/-! ### The dominant condition -/
/-- Spec-side characterisation of the dominant condition, following the
words of the specification: the first value of the partition, in insertion
order, whose occurrence count is maximal (the mode, ties broken by first
appearance). -/
def dominantSpec (l : List String) : Option String :=
  l.find? (fun s => l.all (fun t => l.count t ≤ l.count s))

/-- First entry with the greatest count, scanning from the left: the head
of a count-descending stable sort. -/
def pickFirstMax : List (String × ℕ) → Option (String × ℕ)
  | [] => none
  | x :: rest =>
    match pickFirstMax rest with
    | none => some x
    | some m => if m.2 ≤ x.2 then some x else some m

/-- First element with the greatest `cnt` value, the earliest winning
ties. -/
def firstMaxBy (cnt : String → ℕ) : List String → Option String
  | [] => none
  | s :: rest =>
    match firstMaxBy cnt rest with
    | none => some s
    | some m => if cnt m ≤ cnt s then some s else some m

/-- The first observation of the C4 witness partition: condition Rain. -/
def c4Rain : Obs :=
  { city := "Delhi", main := "Rain", description := "light rain", temp := 28,
    feels_like := 29, humidity := 80, pressure := 1000, wind_speed := 5,
    dt := 1000 }

/-- The second observation of the same day and city: condition Clouds. -/
def c4Clouds : Obs :=
  { city := "Delhi", main := "Clouds", description := "scattered clouds",
    temp := 29, feels_like := 30, humidity := 75, pressure := 1001,
    wind_speed := 4, dt := 2000 }

/-- A one-day Delhi store with tied conditions Rain and Clouds. -/
def c4Store : List Obs := [c4Rain, c4Clouds]

/-- First C5 witness observation: Delhi at 30 degrees. -/
def c5Obs1 : Obs :=
  { city := "Delhi", main := "Clear", description := "clear sky", temp := 30,
    feels_like := 31, humidity := 40, pressure := 1010, wind_speed := 2,
    dt := 10000 }

/-- Second C5 witness observation: Delhi at 35 degrees, same day. -/
def c5Obs2 : Obs :=
  { city := "Delhi", main := "Clear", description := "clear sky", temp := 35,
    feels_like := 36, humidity := 45, pressure := 1011, wind_speed := 3,
    dt := 20000 }

/-- Third C5 witness observation: Delhi at 40 degrees, same day. -/
def c5Obs3 : Obs :=
  { city := "Delhi", main := "Haze", description := "haze", temp := 40,
    feels_like := 42, humidity := 50, pressure := 1012, wind_speed := 4,
    dt := 30000 }

/-- A one-day Delhi store with temperatures 30, 35 and 40. -/
def c5Store : List Obs := [c5Obs1, c5Obs2, c5Obs3]

/-! ### Lemmas about the dedup engine -/
theorem dedupByAux_congr {α β : Type} [DecidableEq β] (key : α → β)
    (l : List α) (s₁ s₂ : List β) (h : ∀ b, b ∈ s₁ ↔ b ∈ s₂) :
    dedupByAux key l s₁ = dedupByAux key l s₂ := by
  induction l generalizing s₁ s₂ with
  | nil => rfl
  | cons a rest ih =>
    simp only [dedupByAux]
    by_cases hk : key a ∈ s₁
    · rw [if_pos hk, if_pos ((h _).mp hk)]
      exact ih _ _ h
    · rw [if_neg hk, if_neg (fun hc => hk ((h _).mpr hc))]
      refine congrArg _ (ih _ _ ?_)
      intro b
      simp only [List.mem_cons]
      exact or_congr Iff.rfl (h b)

theorem mem_of_mem_dedupByAux {α β : Type} [DecidableEq β] (key : α → β)
    (l : List α) (seen : List β) (x : α) (hx : x ∈ dedupByAux key l seen) :
    x ∈ l := by
  induction l generalizing seen with
  | nil => simp [dedupByAux] at hx
  | cons a rest ih =>
    simp only [dedupByAux] at hx
    by_cases hk : key a ∈ seen
    · rw [if_pos hk] at hx
      exact List.mem_cons_of_mem _ (ih _ hx)
    · rw [if_neg hk] at hx
      rcases List.mem_cons.mp hx with h | h
      · exact h ▸ List.mem_cons_self _ _
      · exact List.mem_cons_of_mem _ (ih _ h)

theorem key_mem_dedupByAux {α β : Type} [DecidableEq β] (key : α → β)
    (l : List α) (seen : List β) (b : β) :
    b ∈ (dedupByAux key l seen).map key ↔ b ∈ l.map key ∧ b ∉ seen := by
  induction l generalizing seen with
  | nil => simp [dedupByAux]
  | cons a rest ih =>
    simp only [dedupByAux]
    by_cases hk : key a ∈ seen
    · rw [if_pos hk, ih]
      simp only [List.map_cons, List.mem_cons]
      constructor
      · rintro ⟨h1, h2⟩
        exact ⟨Or.inr h1, h2⟩
      · rintro ⟨h1 | h1, h2⟩
        · exact absurd (h1 ▸ hk) h2
        · exact ⟨h1, h2⟩
    · rw [if_neg hk]
      simp only [List.map_cons, List.mem_cons, ih]
      by_cases hb : b = key a
      · simp [hb, hk]
      · simp only [hb, false_or]

theorem dedupByAux_key_nodup {α β : Type} [DecidableEq β] (key : α → β)
    (l : List α) (seen : List β) :
    ((dedupByAux key l seen).map key).Nodup := by
  induction l generalizing seen with
  | nil => simp [dedupByAux]
  | cons a rest ih =>
    simp only [dedupByAux]
    by_cases hk : key a ∈ seen
    · rw [if_pos hk]; exact ih _
    · rw [if_neg hk]
      simp only [List.map_cons, List.nodup_cons]
      refine ⟨fun hc => ?_, ih _⟩
      exact ((key_mem_dedupByAux key rest _ _).mp hc).2 (List.mem_cons_self _ _)

theorem dedupByAux_append {α β : Type} [DecidableEq β] (key : α → β)
    (l₁ l₂ : List α) (seen : List β) :
    dedupByAux key (l₁ ++ l₂) seen =
      dedupByAux key l₁ seen ++ dedupByAux key l₂ (l₁.map key ++ seen) := by
  induction l₁ generalizing seen with
  | nil => simp [dedupByAux]
  | cons a rest ih =>
    show dedupByAux key (a :: (rest ++ l₂)) seen = _
    simp only [dedupByAux]
    by_cases hk : key a ∈ seen
    · rw [if_pos hk, if_pos hk, ih]
      refine congrArg _ (dedupByAux_congr _ _ _ _ fun b => ?_)
      simp only [List.map_cons, List.cons_append, List.mem_append,
        List.mem_cons]
      constructor
      · rintro (h | h)
        · exact Or.inr (Or.inl h)
        · exact Or.inr (Or.inr h)
      · rintro (h | h | h)
        · exact Or.inr (h ▸ hk)
        · exact Or.inl h
        · exact Or.inr h
    · rw [if_neg hk, if_neg hk, ih, List.cons_append]
      refine congrArg _ (congrArg _ (dedupByAux_congr _ _ _ _ fun b => ?_))
      simp only [List.mem_append, List.mem_cons, List.map_cons]
      tauto

theorem dedupByAux_eq_nil {α β : Type} [DecidableEq β] (key : α → β)
    (l : List α) (seen : List β) (h : ∀ x ∈ l, key x ∈ seen) :
    dedupByAux key l seen = [] := by
  induction l with
  | nil => rfl
  | cons a rest ih =>
    simp only [dedupByAux, if_pos (h a (List.mem_cons_self _ _))]
    exact ih fun x hx => h x (List.mem_cons_of_mem _ hx)

theorem dedupByAux_eq_self {α β : Type} [DecidableEq β] (key : α → β)
    (l : List α) (seen : List β) (hn : (l.map key).Nodup)
    (hs : ∀ x ∈ l, key x ∉ seen) :
    dedupByAux key l seen = l := by
  induction l generalizing seen with
  | nil => rfl
  | cons a rest ih =>
    simp only [List.map_cons, List.nodup_cons] at hn
    simp only [dedupByAux, if_neg (hs a (List.mem_cons_self _ _))]
    refine congrArg _ (ih _ hn.2 fun x hx => ?_)
    simp only [List.mem_cons]
    rintro (h | h)
    · exact hn.1 (h ▸ List.mem_map_of_mem key hx)
    · exact hs x (List.mem_cons_of_mem _ hx) h

theorem mem_dedupBy_id {α : Type} [DecidableEq α] (l : List α) (x : α) :
    x ∈ dedupBy id l ↔ x ∈ l := by
  have := key_mem_dedupByAux (id : α → α) l [] x
  simpa [dedupBy, List.map_id] using this

/-! ### C2 and C3: the store merge -/
theorem addReadings_key_nodup (store newData : List Obs) :
    ((addReadings store newData).map obsKey).Nodup ∨
      addReadings store newData = store := by
  by_cases h : newData.isEmpty
  · exact Or.inr (by simp [addReadings, h])
  · exact Or.inl (by simp only [addReadings, h, if_false, dedupBy]
                     exact dedupByAux_key_nodup obsKey _ [])

/-- Merging the same batch a second time is the identity: every incoming
key is already present after the first merge, so the second
`drop_duplicates` pass drops the whole batch. -/
theorem addReadings_self (store xs : List Obs) :
    addReadings (addReadings store xs) xs = addReadings store xs := by
  by_cases hx : xs.isEmpty
  · simp [addReadings, hx]
  · have hxe : xs.isEmpty = false := by
      cases h : xs.isEmpty
      · rfl
      · exact absurd h hx
    have h1 : addReadings store xs = dedupBy obsKey (store ++ xs) := by
      simp [addReadings, hxe]
    have hnodup : ((dedupBy obsKey (store ++ xs)).map obsKey).Nodup :=
      dedupByAux_key_nodup obsKey _ []
    have hsub : ∀ x ∈ xs,
        obsKey x ∈ (dedupBy obsKey (store ++ xs)).map obsKey ++ [] := by
      intro x hx'
      simp only [List.mem_append, List.not_mem_nil, or_false]
      exact (key_mem_dedupByAux obsKey (store ++ xs) [] (obsKey x)).mpr
        ⟨List.mem_map_of_mem obsKey (List.mem_append_right store hx'),
         List.not_mem_nil _⟩
    have h2 : dedupBy obsKey (dedupBy obsKey (store ++ xs) ++ xs) =
        dedupBy obsKey (store ++ xs) := by
      show dedupByAux obsKey (dedupBy obsKey (store ++ xs) ++ xs) [] = _
      rw [dedupByAux_append]
      rw [dedupByAux_eq_self obsKey _ [] hnodup (by simp)]
      rw [dedupByAux_eq_nil obsKey xs _ hsub]
      simp [dedupBy]
    rw [h1]
    simp only [addReadings, hxe, if_false]
    exact h2

/-! ### Lemmas about the stable insertion sort -/
theorem insertSorted_perm {α : Type} (le : α → α → Bool) (x : α)
    (l : List α) : (insertSorted le x l).Perm (x :: l) := by
  induction l with
  | nil => exact List.Perm.refl _
  | cons y rest ih =>
    simp only [insertSorted]
    by_cases h : le x y
    · rw [if_pos h]
    · rw [if_neg h]
      exact (ih.cons y).trans (List.Perm.swap x y rest)

theorem insSort_perm {α : Type} (le : α → α → Bool) (l : List α) :
    (insSort le l).Perm l := by
  induction l with
  | nil => exact List.Perm.refl _
  | cons x rest ih =>
    exact (insertSorted_perm le x (insSort le rest)).trans (ih.cons x)

theorem mem_insSort {α : Type} (le : α → α → Bool) (l : List α) (x : α) :
    x ∈ insSort le l ↔ x ∈ l :=
  (insSort_perm le l).mem_iff

theorem insSort_nodup {α : Type} (le : α → α → Bool) (l : List α)
    (h : l.Nodup) : (insSort le l).Nodup :=
  ((insSort_perm le l).nodup_iff).mpr h

theorem insertSorted_head? {α : Type} (le : α → α → Bool) (x : α)
    (l : List α) :
    (insertSorted le x l).head? =
      some (match l.head? with
            | none => x
            | some y => if le x y then x else y) := by
  cases l with
  | nil => rfl
  | cons y rest =>
    simp only [insertSorted, List.head?_cons]
    by_cases h : le x y
    · rw [if_pos h]; simp [h]
    · rw [if_neg h]; simp [h]

/-! ### Lemmas about the latest-per-city view -/
theorem lastForCity_eq_some (store : List Obs) (c : String) (o : Obs)
    (h : lastForCity store c = some o) :
    o.city = c ∧ ∃ l₁ l₂, store = l₁ ++ o :: l₂ ∧ ∀ x ∈ l₂, x.city ≠ c := by
  induction store with
  | nil => simp [lastForCity] at h
  | cons a rest ih =>
    rw [lastForCity] at h
    by_cases ha : a.city = c
    · rw [List.filter_cons_of_pos (by simpa using ha)] at h
      cases hrest : (rest.filter (fun o => o.city = c)).getLast? with
      | none =>
        have hnil : rest.filter (fun o => o.city = c) = [] :=
          List.getLast?_eq_none_iff.mp hrest
        have hae : a = o := by
          rw [List.getLast?_cons, hnil] at h
          simpa using h
        subst hae
        refine ⟨ha, [], rest, rfl, fun x hx hc => ?_⟩
        have : x ∈ rest.filter (fun o => o.city = c) :=
          List.mem_filter.mpr ⟨hx, by simpa using hc⟩
        simp [hnil] at this
      | some b =>
        have hne : rest.filter (fun o => o.city = c) ≠ [] := by
          intro hc
          rw [hc] at hrest
          simp at hrest
        have : (a :: rest.filter (fun o => o.city = c)).getLast? =
            (rest.filter (fun o => o.city = c)).getLast? := by
          cases hl : rest.filter (fun o => o.city = c) with
          | nil => exact absurd hl hne
          | cons p q => simp [List.getLast?_cons_cons]
        rw [this] at h
        obtain ⟨hcity, l₁, l₂, heq, hl₂⟩ := ih (by rw [lastForCity]; exact h)
        exact ⟨hcity, a :: l₁, l₂, by rw [heq]; rfl, hl₂⟩
    · rw [List.filter_cons_of_neg (by simpa using ha)] at h
      obtain ⟨hcity, l₁, l₂, heq, hl₂⟩ := ih (by rw [lastForCity]; exact h)
      exact ⟨hcity, a :: l₁, l₂, by rw [heq]; rfl, hl₂⟩

theorem lastForCity_isSome (store : List Obs) (c : String)
    (h : ∃ x ∈ store, x.city = c) : ∃ o, lastForCity store c = some o := by
  obtain ⟨x, hx, hc⟩ := h
  have hmem : x ∈ store.filter (fun o => o.city = c) :=
    List.mem_filter.mpr ⟨hx, by simpa using hc⟩
  have hne : store.filter (fun o => o.city = c) ≠ [] := by
    intro hnil
    rw [hnil] at hmem
    simp at hmem
  rw [lastForCity]
  cases hl : (store.filter (fun o => o.city = c)).getLast? with
  | none => exact absurd (List.getLast?_eq_none_iff.mp hl) hne
  | some o => exact ⟨o, rfl⟩

theorem mem_latestPerCity (store : List Obs) (r : Obs)
    (h : r ∈ latestPerCity store) : lastForCity store r.city = some r := by
  rw [latestPerCity] at h
  obtain ⟨c, _, hc⟩ := List.mem_filterMap.mp h
  have := (lastForCity_eq_some store c r hc).1
  rw [this]
  exact hc

theorem latestPerCity_map_city (store : List Obs) :
    (latestPerCity store).map Obs.city =
      (insSort strLe (dedupBy id (store.map Obs.city))).filter
        (fun c => (lastForCity store c).isSome) := by
  rw [latestPerCity]
  induction insSort strLe (dedupBy id (store.map Obs.city)) with
  | nil => rfl
  | cons c rest ih =>
    rw [List.filterMap_cons]
    cases hc : lastForCity store c with
    | none =>
      rw [List.filter_cons_of_neg (by simp [hc])]
      exact ih
    | some o =>
      rw [List.filter_cons_of_pos (by simp [hc])]
      simp only [List.map_cons, ih]
      exact congrArg (· :: _) (lastForCity_eq_some store c o hc).1

theorem latestPerCity_city_nodup (store : List Obs) :
    ((latestPerCity store).map Obs.city).Nodup := by
  rw [latestPerCity_map_city]
  refine List.Nodup.filter _ (insSort_nodup _ _ ?_)
  have h := dedupByAux_key_nodup (id : String → String) (store.map Obs.city) []
  simpa [dedupBy] using h

theorem mem_city_latestPerCity (store : List Obs) (c : String)
    (h : ∃ x ∈ store, x.city = c) :
    ∃ r ∈ latestPerCity store, lastForCity store c = some r := by
  obtain ⟨o, ho⟩ := lastForCity_isSome store c h
  refine ⟨o, ?_, ho⟩
  rw [latestPerCity]
  refine List.mem_filterMap.mpr ⟨c, ?_, ho⟩
  rw [mem_insSort, mem_dedupBy_id]
  obtain ⟨x, hx, hc⟩ := h
  exact hc ▸ List.mem_map_of_mem Obs.city hx

theorem pairwise_getLast {α : Type} (R : α → α → Prop) (l : List α) (o : α)
    (hp : l.Pairwise R) (hl : l.getLast? = some o) :
    ∀ x ∈ l, x = o ∨ R x o := by
  have hsplit : l.dropLast ++ [o] = l :=
    List.dropLast_append_getLast? o (by rw [hl]; rfl)
  intro x hx
  rw [← hsplit] at hp hx
  rcases List.mem_append.mp hx with hx' | hx'
  · exact Or.inr ((List.pairwise_append.mp hp).2.2 x hx' o
      (List.mem_singleton.mpr rfl))
  · exact Or.inl (List.mem_singleton.mp hx')

/-- C2: merging an identical batch twice leaves the stored frame, and in
particular its row count, exactly as after the first merge. -/
theorem add_twice_same_size (store xs : List Obs) :
    (addReadings (addReadings store xs) xs).length =
        (addReadings store xs).length ∧
      addReadings (addReadings store xs) xs = addReadings store xs :=
  ⟨congrArg List.length (addReadings_self store xs), addReadings_self store xs⟩

theorem addReadings_pairwise_key (s xs : List Obs)
    (h : s.Pairwise (fun a b => obsKey a ≠ obsKey b)) :
    (addReadings s xs).Pairwise (fun a b => obsKey a ≠ obsKey b) := by
  by_cases hx : xs.isEmpty
  · simpa [addReadings, hx] using h
  · have hxe : xs.isEmpty = false := by
      cases hh : xs.isEmpty
      · rfl
      · exact absurd hh hx
    have hnodup : ((dedupBy obsKey (s ++ xs)).map obsKey).Nodup :=
      dedupByAux_key_nodup obsKey _ []
    have := (List.pairwise_map).mp hnodup
    simpa [addReadings, hxe] using this

/-- C3: every store reachable by a sequence of merges from the empty frame
has pairwise distinct (city, dt) column pairs: `drop_duplicates` after each
`pd.concat` never lets a duplicate key survive. -/
theorem store_key_unique (batches : List (List Obs)) :
    (batches.foldl addReadings []).Pairwise
      (fun a b => obsKey a ≠ obsKey b) := by
  suffices h : ∀ s : List Obs, s.Pairwise (fun a b => obsKey a ≠ obsKey b) →
      (batches.foldl addReadings s).Pairwise (fun a b => obsKey a ≠ obsKey b) by
    exact h [] (List.Pairwise.nil)
  induction batches with
  | nil => intro s hs; exact hs
  | cons xs rest ih =>
    intro s hs
    exact ih _ (addReadings_pairwise_key s xs hs)

/-- C1 (amended): for every city with at least one stored row, the
latest-per-city view returns the most recently inserted row of that city
(the last row of its group), not in general the one with the greatest
`dt`; when the rows of that city happen to be stored in non-decreasing
`dt` order the returned row also carries the greatest `dt`.  On an empty
frame the view is empty. -/
theorem latestPerCity_last_inserted (store : List Obs) (c : String)
    (h : ∃ x ∈ store, x.city = c) :
    latestPerCity [] = [] ∧
    ∃ o, lastForCity store c = some o ∧ o ∈ latestPerCity store ∧
      o.city = c ∧
      (∃ l₁ l₂, store = l₁ ++ o :: l₂ ∧ ∀ x ∈ l₂, x.city ≠ c) ∧
      ((store.filter (fun x => x.city = c)).Pairwise
          (fun a b => a.dt ≤ b.dt) →
        ∀ x ∈ store, x.city = c → x.dt ≤ o.dt) := by
  refine ⟨rfl, ?_⟩
  obtain ⟨o, hmem, ho⟩ := mem_city_latestPerCity store c h
  obtain ⟨hcity, l₁, l₂, heq, hl₂⟩ := lastForCity_eq_some store c o ho
  refine ⟨o, ho, hmem, hcity, ⟨l₁, l₂, heq, hl₂⟩, ?_⟩
  intro hpair x hx hxc
  have hxf : x ∈ store.filter (fun x => x.city = c) :=
    List.mem_filter.mpr ⟨hx, by simpa using hxc⟩
  have hlast : (store.filter (fun x => x.city = c)).getLast? = some o := ho
  rcases pairwise_getLast _ _ o hpair hlast x hxf with rfl | hle
  · exact le_refl _
  · exact hle

/-- C1 (counterexample): on a reachable store the latest-per-city view
returns the most recently inserted Delhi row even though an earlier row of
the same city has a strictly greater `dt`, refuting that the view returns
the observation with the greatest observed_at. -/
theorem latestPerCity_not_greatest_dt :
    latestPerCity c1CexStore = [c1CexLate] ∧ c1CexEarly ∈ c1CexStore ∧
      c1CexEarly.city = c1CexLate.city ∧ c1CexLate.dt < c1CexEarly.dt := by
  decide

/-- C1 witness: the amended statement applied to a concrete one-row
store. -/
theorem latestPerCity_last_inserted_witness :
    (∃ x ∈ [c1WitObs], x.city = "Mumbai") ∧
      (latestPerCity [] = [] ∧
        ∃ o, lastForCity [c1WitObs] "Mumbai" = some o ∧
          o ∈ latestPerCity [c1WitObs] ∧ o.city = "Mumbai" ∧
          (∃ l₁ l₂, [c1WitObs] = l₁ ++ o :: l₂ ∧ ∀ x ∈ l₂, x.city ≠ "Mumbai") ∧
          (([c1WitObs].filter (fun x => x.city = "Mumbai")).Pairwise
              (fun a b => a.dt ≤ b.dt) →
            ∀ x ∈ [c1WitObs], x.city = "Mumbai" → x.dt ≤ o.dt)) :=
  ⟨⟨c1WitObs, List.mem_singleton.mpr rfl, rfl⟩,
    latestPerCity_last_inserted [c1WitObs] "Mumbai"
      ⟨c1WitObs, List.mem_singleton.mpr rfl, rfl⟩⟩

/-- C7: recomputing on an empty observation frame returns early, leaving
whatever summaries were previously computed exactly as they were; no
summary rows are produced from an empty frame. -/
theorem recompute_empty_noop (prev : List SummaryRow) :
    calculate_daily_summary [] prev = prev ∧
      summaryKeys ([] : List Obs) = [] :=
  ⟨rfl, rfl⟩

theorem countP_ite_single {α : Type} (p : α → Bool) (c : Prop)
    [Decidable c] (a : α) :
    (if c then [a] else []).countP p =
      if c then (if p a then 1 else 0) else 0 := by
  split_ifs with h1 h2 <;> simp_all [List.countP_cons]

theorem countP_cityAlerts_temp (t : Thresholds) (row : Obs) (c : String) :
    (cityAlerts t row).countP (isTempAlertFor c) =
      if row.city = c ∧ row.temp > (t.temp : ℚ) then 1 else 0 := by
  simp only [cityAlerts, List.countP_append, countP_ite_single]
  by_cases hc : row.city = c <;> by_cases h1 : row.temp > (t.temp : ℚ) <;>
    split_ifs <;> simp_all [isTempAlertFor]

theorem countP_cityAlerts_humid (t : Thresholds) (row : Obs) (c : String) :
    (cityAlerts t row).countP (isHumidAlertFor c) =
      if row.city = c ∧ row.humidity > (t.humidity : ℚ) then 1 else 0 := by
  simp only [cityAlerts, List.countP_append, countP_ite_single]
  by_cases hc : row.city = c <;>
    by_cases h1 : row.humidity > (t.humidity : ℚ) <;>
    split_ifs <;> simp_all [isHumidAlertFor]

theorem countP_cityAlerts_wind (t : Thresholds) (row : Obs) (c : String) :
    (cityAlerts t row).countP (isWindAlertFor c) =
      if row.city = c ∧ row.wind_speed > (t.wind_speed : ℚ) then 1 else 0 := by
  simp only [cityAlerts, List.countP_append, countP_ite_single]
  by_cases hc : row.city = c <;>
    by_cases h1 : row.wind_speed > (t.wind_speed : ℚ) <;>
    split_ifs <;> simp_all [isWindAlertFor]

theorem cityAlerts_length_le (t : Thresholds) (row : Obs) :
    (cityAlerts t row).length ≤ 4 := by
  simp only [cityAlerts, List.length_append]
  split_ifs <;> simp

theorem countP_flatMap_zero {α β : Type} (f : α → List β) (p : β → Bool)
    (rows : List α) (h : ∀ r ∈ rows, (f r).countP p = 0) :
    (rows.flatMap f).countP p = 0 := by
  induction rows with
  | nil => simp
  | cons a rest ih =>
    simp only [List.flatMap_cons, List.countP_append,
      h a (List.mem_cons_self _ _),
      ih fun r hr => h r (List.mem_cons_of_mem _ hr)]

theorem countP_flatMap_single {α β : Type} (f : α → List β) (p : β → Bool)
    (rows : List α) (row : α) (hmem : row ∈ rows) (hnd : rows.Nodup)
    (h0 : ∀ r ∈ rows, r ≠ row → (f r).countP p = 0) :
    (rows.flatMap f).countP p = (f row).countP p := by
  induction rows with
  | nil => simp at hmem
  | cons a rest ih =>
    rcases List.mem_cons.mp hmem with rfl | hmem'
    · have hz : ∀ r ∈ rest, (f r).countP p = 0 := fun r hr =>
        h0 r (List.mem_cons_of_mem _ hr)
          (fun he => (List.nodup_cons.mp hnd).1 (he ▸ hr))
      simp [List.flatMap_cons, List.countP_append,
        countP_flatMap_zero f p rest hz]
    · have ha : a ≠ row := fun he =>
        (List.nodup_cons.mp hnd).1 (he ▸ hmem')
      simp [List.flatMap_cons, List.countP_append,
        h0 a (List.mem_cons_self _ _) ha,
        ih hmem' (List.nodup_cons.mp hnd).2
          fun r hr hne => h0 r (List.mem_cons_of_mem _ hr) hne]

theorem check_alerts_nonempty (t : Thresholds) (store : List Obs)
    (log : List Alert) (h : store ≠ []) :
    check_alerts t store log =
      log ++ (latestPerCity store).flatMap (cityAlerts t) := by
  have he : store.isEmpty = false := by
    cases store with
    | nil => exact absurd rfl h
    | cons a rest => rfl
  simp [check_alerts, he]

theorem latestPerCity_unique_city (store : List Obs) (c : String)
    (row r : Obs) (hrow : lastForCity store c = some row)
    (hr : r ∈ latestPerCity store) (hc : r.city = c) : r = row := by
  have := mem_latestPerCity store r hr
  rw [hc, hrow] at this
  exact (Option.some_injective _ this).symm

/-- C6: when the latest reading of a city strictly exceeds the temperature
threshold, the evaluation appends exactly one temperature alert for that
city to the log, the alert carries the city and the observed temperature
(rendered at one decimal by `renderAlert` via `fmt1`), and any one city
contributes at most four alerts in a cycle. -/
theorem temp_alert_exactly_one (t : Thresholds) (store : List Obs)
    (log : List Alert) (c : String) (row : Obs)
    (hrow : lastForCity store c = some row)
    (ht : row.temp > (t.temp : ℚ)) :
    check_alerts t store log =
        log ++ (latestPerCity store).flatMap (cityAlerts t) ∧
      ((latestPerCity store).flatMap (cityAlerts t)).countP
          (isTempAlertFor c) = 1 ∧
      Alert.temperature c t.temp row.temp ∈
        (latestPerCity store).flatMap (cityAlerts t) ∧
      ∀ r ∈ latestPerCity store, (cityAlerts t r).length ≤ 4 := by
  have hne : store ≠ [] := by
    intro h
    rw [h] at hrow
    simp [lastForCity] at hrow
  have hcity : row.city = c := (lastForCity_eq_some store c row hrow).1
  obtain ⟨hx, l₁, l₂, heq, -⟩ := lastForCity_eq_some store c row hrow
  have hrowstore : ∃ x ∈ store, x.city = c :=
    ⟨row, by rw [heq]; exact List.mem_append_right _ (List.mem_cons_self _ _),
      hcity⟩
  obtain ⟨r, hrmem, hreq⟩ := mem_city_latestPerCity store c hrowstore
  have hrr : r = row := by
    rw [hrow] at hreq
    exact (Option.some_injective _ hreq).symm
  subst hrr
  have halert : Alert.temperature c t.temp r.temp ∈ cityAlerts t r := by
    rw [cityAlerts, if_pos ht]
    refine List.mem_append_left _ (List.mem_append_left _
      (List.mem_append_left _ ?_))
    rw [hcity]
    exact List.mem_cons_self _ _
  have hnodupRows : (latestPerCity store).Nodup :=
    (latestPerCity_city_nodup store).of_map
  refine ⟨check_alerts_nonempty t store log hne, ?_, ?_, ?_⟩
  · rw [countP_flatMap_single (cityAlerts t) (isTempAlertFor c) _ r hrmem
      hnodupRows ?h0]
    · rw [countP_cityAlerts_temp, if_pos ⟨hcity, ht⟩]
    · intro x hx hne'
      rw [countP_cityAlerts_temp, if_neg]
      rintro ⟨hc1, -⟩
      exact hne' (latestPerCity_unique_city store c r x hrow hx hc1)
  · exact List.mem_flatMap.mpr ⟨r, hrmem, halert⟩
  · exact fun x _ => cityAlerts_length_le t x

/-- C6 witness: a Mumbai reading of 36 against threshold 35 yields exactly
one temperature alert, and its rendered message mentions Mumbai and 36. -/
theorem temp_alert_exactly_one_witness :
    lastForCity [c6Obs] "Mumbai" = some c6Obs ∧
      c6Obs.temp > ((c6T.temp : ℤ) : ℚ) ∧
      (check_alerts c6T [c6Obs] [] =
          [] ++ (latestPerCity [c6Obs]).flatMap (cityAlerts c6T) ∧
        ((latestPerCity [c6Obs]).flatMap (cityAlerts c6T)).countP
            (isTempAlertFor "Mumbai") = 1 ∧
        Alert.temperature "Mumbai" c6T.temp c6Obs.temp ∈
          (latestPerCity [c6Obs]).flatMap (cityAlerts c6T) ∧
        ∀ r ∈ latestPerCity [c6Obs], (cityAlerts c6T r).length ≤ 4) ∧
      renderAlert (Alert.temperature "Mumbai" 35 36) =
        "🌡️ Alert: Temperature in Mumbai exceeded 35°C. Current temperature: 36.0°C" := by
  refine ⟨by decide, by decide,
    temp_alert_exactly_one c6T [c6Obs] [] "Mumbai" c6Obs (by decide)
      (by decide), ?_⟩
  have h360 : roundHalfEven ((36 : ℚ) * 10) = 360 := by
    norm_num [roundHalfEven, Int.fdiv]
  simp only [renderAlert, fmt1, h360]
  decide

/-- C10: the three numeric comparisons of `check_alerts` are strict, so a
latest reading that sits exactly on a threshold emits no alert for that
metric. -/
theorem boundary_equal_no_alert (t : Thresholds) (store : List Obs)
    (log : List Alert) (c : String) (row : Obs)
    (hrow : lastForCity store c = some row) :
    check_alerts t store log =
        log ++ (latestPerCity store).flatMap (cityAlerts t) ∧
      (row.temp = (t.temp : ℚ) →
        ((latestPerCity store).flatMap (cityAlerts t)).countP
          (isTempAlertFor c) = 0) ∧
      (row.humidity = (t.humidity : ℚ) →
        ((latestPerCity store).flatMap (cityAlerts t)).countP
          (isHumidAlertFor c) = 0) ∧
      (row.wind_speed = (t.wind_speed : ℚ) →
        ((latestPerCity store).flatMap (cityAlerts t)).countP
          (isWindAlertFor c) = 0) := by
  have hne : store ≠ [] := by
    intro h
    rw [h] at hrow
    simp [lastForCity] at hrow
  refine ⟨check_alerts_nonempty t store log hne, ?_, ?_, ?_⟩
  · intro heq
    refine countP_flatMap_zero _ _ _ fun r hr => ?_
    rw [countP_cityAlerts_temp, if_neg]
    rintro ⟨hc1, hgt⟩
    have := latestPerCity_unique_city store c row r hrow hr hc1
    subst this
    rw [heq] at hgt
    exact lt_irrefl _ hgt
  · intro heq
    refine countP_flatMap_zero _ _ _ fun r hr => ?_
    rw [countP_cityAlerts_humid, if_neg]
    rintro ⟨hc1, hgt⟩
    have := latestPerCity_unique_city store c row r hrow hr hc1
    subst this
    rw [heq] at hgt
    exact lt_irrefl _ hgt
  · intro heq
    refine countP_flatMap_zero _ _ _ fun r hr => ?_
    rw [countP_cityAlerts_wind, if_neg]
    rintro ⟨hc1, hgt⟩
    have := latestPerCity_unique_city store c row r hrow hr hc1
    subst this
    rw [heq] at hgt
    exact lt_irrefl _ hgt

/-- C10 witness: a reading equal to every numeric threshold triggers no
numeric alert. -/
theorem boundary_equal_no_alert_witness :
    lastForCity [c10Obs] "Delhi" = some c10Obs ∧
      ((latestPerCity [c10Obs]).flatMap (cityAlerts c10T)).countP
          (isTempAlertFor "Delhi") = 0 ∧
      ((latestPerCity [c10Obs]).flatMap (cityAlerts c10T)).countP
          (isHumidAlertFor "Delhi") = 0 ∧
      ((latestPerCity [c10Obs]).flatMap (cityAlerts c10T)).countP
          (isWindAlertFor "Delhi") = 0 := by
  refine ⟨by decide, ?_, ?_, ?_⟩
  · exact (boundary_equal_no_alert c10T [c10Obs] [] "Delhi" c10Obs
      (by decide)).2.1 (by decide)
  · exact (boundary_equal_no_alert c10T [c10Obs] [] "Delhi" c10Obs
      (by decide)).2.2.1 (by decide)
  · exact (boundary_equal_no_alert c10T [c10Obs] [] "Delhi" c10Obs
      (by decide)).2.2.2 (by decide)

/-! ### The refresh cycle -/
theorem mem_runCycleFailures (fetch : String → Option Obs)
    (cityList : List String) (c : String) :
    c ∈ runCycleFailures fetch cityList ↔
      c ∈ cityList ∧ fetch c = none := by
  induction cityList with
  | nil => simp [runCycleFailures]
  | cons a rest ih =>
    cases hf : fetch a with
    | some d =>
      simp only [runCycleFailures, hf, List.mem_cons, ih]
      constructor
      · rintro ⟨h1, h2⟩
        exact ⟨Or.inr h1, h2⟩
      · rintro ⟨rfl | h1, h2⟩
        · rw [hf] at h2
          cases h2
        · exact ⟨h1, h2⟩
    | none =>
      simp only [runCycleFailures, hf, List.mem_cons, ih]
      constructor
      · rintro (rfl | ⟨h1, h2⟩)
        · exact ⟨Or.inl rfl, hf⟩
        · exact ⟨Or.inr h1, h2⟩
      · rintro ⟨rfl | h1, h2⟩
        · exact Or.inl rfl
        · exact Or.inr ⟨h1, h2⟩

theorem runCycle_once_per_city (fetch : String → Option Obs)
    (cityList : List String) :
    (runCycleFailures fetch cityList).length +
      (runCycleNewData fetch cityList).length = cityList.length := by
  induction cityList with
  | nil => rfl
  | cons a rest ih =>
    cases hf : fetch a <;>
      simp only [runCycleFailures, runCycleNewData, hf, List.length_cons] <;>
      omega

theorem mem_runCycleNewData (fetch : String → Option Obs)
    (cityList : List String) (c : String) (o : Obs) (hc : c ∈ cityList)
    (hf : fetch c = some o) : o ∈ runCycleNewData fetch cityList := by
  induction cityList with
  | nil => simp at hc
  | cons a rest ih =>
    rcases List.mem_cons.mp hc with rfl | hc'
    · simp [runCycleNewData, hf]
    · cases hfa : fetch a with
      | some d =>
        simp only [runCycleNewData, hfa, List.mem_cons]
        exact Or.inr (ih hc')
      | none =>
        simp only [runCycleNewData, hfa]
        exact ih hc'

theorem key_mem_addReadings (store newData : List Obs) (o : Obs)
    (ho : o ∈ newData) :
    ∃ r ∈ addReadings store newData, obsKey r = obsKey o := by
  have hxe : newData.isEmpty = false := by
    cases newData with
    | nil => simp at ho
    | cons a rest => rfl
  have hkey : obsKey o ∈ (dedupBy obsKey (store ++ newData)).map obsKey :=
    (key_mem_dedupByAux obsKey (store ++ newData) [] (obsKey o)).mpr
      ⟨List.mem_map_of_mem obsKey (List.mem_append_right store ho),
       List.not_mem_nil _⟩
  obtain ⟨r, hr, heq⟩ := List.mem_map.mp hkey
  refine ⟨r, ?_, heq⟩
  simpa [addReadings, hxe] using hr

/-- C8: one provider call per configured city; a failing city is surfaced
in the failures list without aborting the cycle, and every successful
reading is merged into the store (its key is present after the merge). -/
theorem runCycle_spec (fetch : String → Option Obs) (cityList : List String)
    (store : List Obs) :
    (∀ c, c ∈ (update_weather_data fetch cityList store).2 ↔
        c ∈ cityList ∧ fetch c = none) ∧
      (update_weather_data fetch cityList store).2.length +
          (runCycleNewData fetch cityList).length = cityList.length ∧
      (∀ c ∈ cityList, ∀ o, fetch c = some o →
        ∃ r ∈ (update_weather_data fetch cityList store).1,
          obsKey r = obsKey o) ∧
      (update_weather_data fetch cityList store).1 =
        addReadings store (runCycleNewData fetch cityList) := by
  refine ⟨fun c => mem_runCycleFailures fetch cityList c,
    runCycle_once_per_city fetch cityList, ?_, rfl⟩
  intro c hc o hf
  exact key_mem_addReadings store _ o (mem_runCycleNewData fetch cityList c o hc hf)

/-- C8 witness: with the configured six cities and a provider failing only
for Chennai, the failures list is exactly Chennai and the Mumbai reading
is merged. -/
theorem runCycle_spec_witness :
    (update_weather_data c8Fetch CITIES []).2 = ["Chennai"] ∧
      (∀ c, c ∈ (update_weather_data c8Fetch CITIES []).2 ↔
        c ∈ CITIES ∧ c8Fetch c = none) ∧
      (∃ r ∈ (update_weather_data c8Fetch CITIES []).1,
        obsKey r = obsKey (c8Success "Mumbai")) :=
  ⟨by decide, (runCycle_spec c8Fetch CITIES []).1,
    (runCycle_spec c8Fetch CITIES []).2.2.1 "Mumbai" (by decide)
      (c8Success "Mumbai") (by decide)⟩

/-! ### The provider-boundary defaults -/
/-- C9 (amended): a payload whose `weather` array, when present, is
non-empty always yields an observation, with the documented defaults
substituted for every missing field; the fetch-completion time stands in
for a missing `dt`. -/
theorem buildObs_defaults (city : String) (now : ℤ) (p : Payload)
    (h : p.weather ≠ some []) :
    ∃ o, buildObs city now p = some o ∧ o.city = city ∧
      (p.weather = none → o.main = "Unknown" ∧ o.description = "Unknown") ∧
      (∀ w rest, p.weather = some (w :: rest) →
        (w.main = none → o.main = "Unknown") ∧
        (w.description = none → o.description = "Unknown")) ∧
      (p.main = none →
        o.temp = 0 ∧ o.feels_like = 0 ∧ o.humidity = 0 ∧ o.pressure = 0) ∧
      (∀ mb, p.main = some mb →
        (mb.temp = none → o.temp = 0) ∧
        (mb.feels_like = none → o.feels_like = 0) ∧
        (mb.humidity = none → o.humidity = 0) ∧
        (mb.pressure = none → o.pressure = 0)) ∧
      ((p.wind = none ∨ ∃ wb, p.wind = some wb ∧ wb.speed = none) →
        o.wind_speed = 0) ∧
      (p.dt = none → o.dt = now) := by
  obtain ⟨pw, pm, pwind, pdt⟩ := p
  cases pw with
  | none =>
    refine ⟨_, rfl, rfl, fun _ => ⟨rfl, rfl⟩, ?_, ?_, ?_, ?_, ?_⟩
    · rintro w rest hco
      cases hco
    · rintro rfl
      exact ⟨rfl, rfl, rfl, rfl⟩
    · rintro mb rfl
      exact ⟨fun h1 => by show mb.temp.getD _ = _; rw [h1]; rfl,
        fun h1 => by show mb.feels_like.getD _ = _; rw [h1]; rfl,
        fun h1 => by show mb.humidity.getD _ = _; rw [h1]; rfl,
        fun h1 => by show mb.pressure.getD _ = _; rw [h1]; rfl⟩
    · rintro (rfl | ⟨wb, rfl, hs⟩)
      · rfl
      · show (wb.speed).getD 0 = 0
        rw [hs]
        rfl
    · rintro rfl
      rfl
  | some l =>
    cases l with
    | nil => exact absurd rfl h
    | cons w rest =>
      refine ⟨_, rfl, rfl, ?_, ?_, ?_, ?_, ?_, ?_⟩
      · rintro hco
        cases hco
      · rintro w2 rest2 hco
        cases hco
        exact ⟨fun h1 => by show w.main.getD _ = _; rw [h1]; rfl,
          fun h1 => by show w.description.getD _ = _; rw [h1]; rfl⟩
      · rintro rfl
        exact ⟨rfl, rfl, rfl, rfl⟩
      · rintro mb rfl
        exact ⟨fun h1 => by show mb.temp.getD _ = _; rw [h1]; rfl,
          fun h1 => by show mb.feels_like.getD _ = _; rw [h1]; rfl,
          fun h1 => by show mb.humidity.getD _ = _; rw [h1]; rfl,
          fun h1 => by show mb.pressure.getD _ = _; rw [h1]; rfl⟩
      · rintro (rfl | ⟨wb, rfl, hs⟩)
        · rfl
        · show (wb.speed).getD 0 = 0
          rw [hs]
          rfl
      · rintro rfl
        rfl

/-- C9 (counterexample): on a payload with a present but empty `weather`
array the construction fails (the uncaught IndexError of
`data.get(..)[0]`) instead of substituting defaults, refuting the claim
for every provider response. -/
theorem buildObs_empty_weather_fails :
    buildObs "Chennai" 5 c9EmptyWeather = none := rfl

/-- C9 witness: the amended statement applied to the all-missing payload,
whose observation carries every documented default. -/
theorem buildObs_defaults_witness :
    c9AllMissing.weather ≠ some [] ∧
      (∃ o, buildObs "Delhi" 777 c9AllMissing = some o ∧ o.city = "Delhi" ∧
        (c9AllMissing.weather = none →
          o.main = "Unknown" ∧ o.description = "Unknown") ∧
        (∀ w rest, c9AllMissing.weather = some (w :: rest) →
          (w.main = none → o.main = "Unknown") ∧
          (w.description = none → o.description = "Unknown")) ∧
        (c9AllMissing.main = none →
          o.temp = 0 ∧ o.feels_like = 0 ∧ o.humidity = 0 ∧ o.pressure = 0) ∧
        (∀ mb, c9AllMissing.main = some mb →
          (mb.temp = none → o.temp = 0) ∧
          (mb.feels_like = none → o.feels_like = 0) ∧
          (mb.humidity = none → o.humidity = 0) ∧
          (mb.pressure = none → o.pressure = 0)) ∧
        ((c9AllMissing.wind = none ∨
            ∃ wb, c9AllMissing.wind = some wb ∧ wb.speed = none) →
          o.wind_speed = 0) ∧
        (c9AllMissing.dt = none → o.dt = 777)) :=
  ⟨by decide, buildObs_defaults "Delhi" 777 c9AllMissing (by decide)⟩

theorem insSort_head?_eq_pickFirstMax (l : List (String × ℕ)) :
    (insSort (fun a b => decide (b.2 ≤ a.2)) l).head? = pickFirstMax l := by
  induction l with
  | nil => rfl
  | cons x rest ih =>
    show (insertSorted _ x (insSort _ rest)).head? = _
    rw [insertSorted_head?, ih]
    cases hr : pickFirstMax rest with
    | none => simp [pickFirstMax, hr]
    | some m =>
      simp only [pickFirstMax, hr]
      by_cases hle : m.2 ≤ x.2
      · simp [hle]
      · simp [hle]

theorem pickFirstMax_map (cnt : String → ℕ) (ks : List String) :
    pickFirstMax (ks.map (fun s => (s, cnt s))) =
      (firstMaxBy cnt ks).map (fun s => (s, cnt s)) := by
  induction ks with
  | nil => rfl
  | cons a rest ih =>
    rw [List.map_cons, pickFirstMax, firstMaxBy, ih]
    cases hr : firstMaxBy cnt rest with
    | none => rfl
    | some m =>
      by_cases hle : cnt m ≤ cnt a
      · simp [hle]
      · simp [hle]

theorem firstMaxBy_isSome (cnt : String → ℕ) (ks : List String)
    (h : ks ≠ []) : ∃ m, firstMaxBy cnt ks = some m := by
  cases ks with
  | nil => exact absurd rfl h
  | cons a rest =>
    cases hfm : firstMaxBy cnt rest with
    | none => exact ⟨a, by rw [firstMaxBy, hfm]⟩
    | some m =>
      by_cases hc : cnt m ≤ cnt a
      · exact ⟨a, by rw [firstMaxBy, hfm]; simp [hc]⟩
      · exact ⟨m, by rw [firstMaxBy, hfm]; simp [hc]⟩

theorem firstMaxBy_spec (cnt : String → ℕ) (ks : List String) :
    ∀ m, firstMaxBy cnt ks = some m →
      ∃ k₁ k₂, ks = k₁ ++ m :: k₂ ∧ (∀ s ∈ k₁, cnt s < cnt m) ∧
        ∀ s ∈ ks, cnt s ≤ cnt m := by
  induction ks with
  | nil => intro m h; cases h
  | cons a rest ih =>
    intro m h
    rw [firstMaxBy] at h
    cases hr : firstMaxBy cnt rest with
    | none =>
      rw [hr] at h
      have hm : a = m := by simpa using h
      subst hm
      have hrest : rest = [] := by
        by_contra hne
        obtain ⟨m'', hm''⟩ := firstMaxBy_isSome cnt rest hne
        rw [hm''] at hr
        cases hr
      subst hrest
      exact ⟨[], [], rfl, by simp, by simp⟩
    | some m' =>
      rw [hr] at h
      obtain ⟨k₁, k₂, heq, hlt, hle⟩ := ih m' hr
      by_cases hc : cnt m' ≤ cnt a
      · have hm : a = m := by simpa [hc] using h
        subst hm
        refine ⟨[], rest, rfl, by simp, ?_⟩
        intro s hs
        rcases List.mem_cons.mp hs with rfl | hs'
        · exact le_refl _
        · exact le_trans (hle s hs') hc
      · have hm : m' = m := by simpa [hc] using h
        subst hm
        refine ⟨a :: k₁, k₂, by rw [heq, List.cons_append], ?_, ?_⟩
        · intro s hs
          rcases List.mem_cons.mp hs with rfl | hs'
          · omega
          · exact hlt s hs'
        · intro s hs
          rcases List.mem_cons.mp hs with rfl | hs'
          · omega
          · exact hle s hs'

theorem dominantWeather_eq_firstMaxBy (l : List String) :
    dominantWeather l = firstMaxBy (fun s => l.count s) (dedupBy id l) := by
  rw [dominantWeather, valueCounts, List.head?_map,
    insSort_head?_eq_pickFirstMax, pickFirstMax_map]
  cases firstMaxBy (fun s => l.count s) (dedupBy id l) <;> rfl

theorem dedupByAux_order {α β : Type} [DecidableEq β] (key : α → β)
    (l : List α) (seen : List β) (k₁ : List α) (u : α) (k₂ : List α)
    (v : α) (heq : dedupByAux key l seen = k₁ ++ u :: k₂) (hv : v ∈ k₂) :
    ∃ p q, l = p ++ u :: q ∧ (∀ y ∈ p, key y ≠ key u) ∧
      ∀ y ∈ p, key y ≠ key v := by
  induction l generalizing seen k₁ with
  | nil => simp [dedupByAux] at heq
  | cons a rest ih =>
    have hu : u ∈ dedupByAux key (a :: rest) seen := by
      rw [heq]
      exact List.mem_append_right _ (List.mem_cons_self _ _)
    have hku : key u ∉ seen :=
      ((key_mem_dedupByAux key (a :: rest) seen (key u)).mp
        (List.mem_map_of_mem key hu)).2
    have hvmem : v ∈ dedupByAux key (a :: rest) seen := by
      rw [heq]
      exact List.mem_append_right _ (List.mem_cons_of_mem _ hv)
    have hkv : key v ∉ seen :=
      ((key_mem_dedupByAux key (a :: rest) seen (key v)).mp
        (List.mem_map_of_mem key hvmem)).2
    rw [dedupByAux] at heq
    by_cases hk : key a ∈ seen
    · rw [if_pos hk] at heq
      obtain ⟨p, q, hl, hpu, hpv⟩ := ih seen k₁ heq
      refine ⟨a :: p, q, by rw [hl, List.cons_append], ?_, ?_⟩
      · intro y hy
        rcases List.mem_cons.mp hy with rfl | hy'
        · exact fun hc => hku (hc ▸ hk)
        · exact hpu y hy'
      · intro y hy
        rcases List.mem_cons.mp hy with rfl | hy'
        · exact fun hc => hkv (hc ▸ hk)
        · exact hpv y hy'
    · rw [if_neg hk] at heq
      cases k₁ with
      | nil =>
        simp only [List.nil_append] at heq
        injection heq with hau htail
        subst hau
        exact ⟨[], rest, rfl, by simp, by simp⟩
      | cons b k₁' =>
        simp only [List.cons_append] at heq
        injection heq with hba htail
        obtain ⟨p, q, hl, hpu, hpv⟩ := ih (key a :: seen) k₁' htail
        have hku' : key u ∉ key a :: seen := by
          have hu' : u ∈ dedupByAux key rest (key a :: seen) := by
            rw [htail]
            exact List.mem_append_right _ (List.mem_cons_self _ _)
          exact ((key_mem_dedupByAux key rest _ (key u)).mp
            (List.mem_map_of_mem key hu')).2
        have hkv' : key v ∉ key a :: seen := by
          have hv' : v ∈ dedupByAux key rest (key a :: seen) := by
            rw [htail]
            exact List.mem_append_right _ (List.mem_cons_of_mem _ hv)
          exact ((key_mem_dedupByAux key rest _ (key v)).mp
            (List.mem_map_of_mem key hv')).2
        refine ⟨a :: p, q, by rw [hl, List.cons_append], ?_, ?_⟩
        · intro y hy
          rcases List.mem_cons.mp hy with rfl | hy'
          · exact fun hc => hku' (hc ▸ List.mem_cons_self _ _)
          · exact hpu y hy'
        · intro y hy
          rcases List.mem_cons.mp hy with rfl | hy'
          · exact fun hc => hkv' (hc ▸ List.mem_cons_self _ _)
          · exact hpv y hy'

theorem first_occ_split {α : Type} (l : List α) (a : α) (h : a ∈ l) :
    ∃ s t, l = s ++ a :: t ∧ a ∉ s := by
  induction l with
  | nil => simp at h
  | cons b rest ih =>
    by_cases hb : b = a
    · exact ⟨[], rest, by rw [hb]; rfl, by simp⟩
    · rcases List.mem_cons.mp h with rfl | h'
      · exact absurd rfl hb
      · obtain ⟨s, t, heq, hns⟩ := ih h'
        refine ⟨b :: s, t, by rw [heq]; rfl, ?_⟩
        intro hc
        rcases List.mem_cons.mp hc with hc' | hc'
        · exact hb hc'.symm
        · exact hns hc'

theorem first_occ_unique {α : Type} (l₁ l₂ p q : List α) (u : α)
    (heq : l₁ ++ u :: l₂ = p ++ u :: q) (h₁ : u ∉ l₁) (h₂ : u ∉ p) :
    l₁ = p := by
  induction l₁ generalizing p with
  | nil =>
    cases p with
    | nil => rfl
    | cons b p' =>
      exfalso
      injection heq with hb htail
      exact h₂ (hb ▸ List.mem_cons_self _ _)
  | cons a l₁' ih =>
    cases p with
    | nil =>
      exfalso
      injection heq with hb htail
      exact h₁ (hb.symm ▸ List.mem_cons_self _ _)
    | cons b p' =>
      injection heq with hb htail
      rw [hb, ih p' htail (fun hc => h₁ (List.mem_cons_of_mem _ hc))
        (fun hc => h₂ (List.mem_cons_of_mem _ hc))]

theorem find?_prefix {α : Type} (p : α → Bool) (s t : List α) (u : α)
    (hs : ∀ x ∈ s, p x = false) (hu : p u = true) :
    (s ++ u :: t).find? p = some u := by
  induction s with
  | nil => simpa [List.find?] using List.find?_cons_of_pos t hu
  | cons a rest ih =>
    rw [List.cons_append, List.find?_cons_of_neg]
    · exact ih fun x hx => hs x (List.mem_cons_of_mem _ hx)
    · simp [hs a (List.mem_cons_self _ _)]

/-- The head of the sorted `value_counts` index is the first condition, in
insertion order of the partition, whose occurrence count is maximal. -/
theorem dominantWeather_eq_dominantSpec (l : List String) :
    dominantWeather l = dominantSpec l := by
  cases hl : l with
  | nil => rfl
  | cons a rest =>
    rw [← hl]
    have hlne : l ≠ [] := by rw [hl]; exact List.cons_ne_nil _ _
    have hksne : dedupBy id l ≠ [] := by
      rw [hl]
      show dedupByAux id (a :: rest) [] ≠ []
      rw [dedupByAux]
      rw [if_neg (List.not_mem_nil _)]
      exact List.cons_ne_nil _ _
    obtain ⟨m, hm⟩ := firstMaxBy_isSome (fun s => l.count s) _ hksne
    rw [dominantWeather_eq_firstMaxBy, hm]
    obtain ⟨k₁, k₂, hksplit, hlt, hle⟩ := firstMaxBy_spec _ _ m hm
    have hmks : m ∈ dedupBy id l := by
      rw [hksplit]
      exact List.mem_append_right _ (List.mem_cons_self _ _)
    have hml : m ∈ l := (mem_dedupBy_id l m).mp hmks
    obtain ⟨s₀, t₀, hsplit, hns⟩ := first_occ_split l m hml
    have hcountle : ∀ x ∈ l, l.count x ≤ l.count m := by
      intro x hx
      exact hle x ((mem_dedupBy_id l x).mpr hx)
    have hpm : (fun s => l.all fun t => l.count t ≤ l.count s) m = true := by
      simp only [List.all_eq_true, decide_eq_true_eq]
      exact hcountle
    have hps : ∀ x ∈ s₀, (fun s => l.all fun t => l.count t ≤ l.count s) x
        = false := by
      intro x hx
      have hxl : x ∈ l := by
        rw [hsplit]
        exact List.mem_append_left _ hx
      have hxks : x ∈ dedupBy id l := (mem_dedupBy_id l x).mpr hxl
      have hxlt : l.count x < l.count m := by
        rw [hksplit] at hxks
        rcases List.mem_append.mp hxks with hx1 | hx2
        · exact hlt x hx1
        · rcases List.mem_cons.mp hx2 with rfl | hx3
          · exact absurd hx hns
          · exfalso
            obtain ⟨pp, qq, hpq, hpu, hpv⟩ :=
              dedupByAux_order (id : String → String) l [] k₁ m k₂ x
                hksplit hx3
            have hs₀ : s₀ = pp :=
              first_occ_unique s₀ t₀ pp qq m (hsplit ▸ hpq) hns
                (fun hc => hpu m hc rfl)
            exact hpv x (hs₀ ▸ hx) rfl
      simp only [List.all_eq_false, decide_eq_true_eq]
      exact ⟨m, hml, by omega⟩
    have hfind : (s₀ ++ m :: t₀).find?
        (fun s => l.all fun t => l.count t ≤ l.count s) = some m :=
      find?_prefix _ s₀ t₀ m hps hpm
    rw [← hsplit] at hfind
    rw [dominantSpec]
    exact hfind.symm

theorem dedupBy_id_ne_nil (l : List String) (h : l ≠ []) :
    dedupBy id l ≠ [] := by
  cases l with
  | nil => exact absurd rfl h
  | cons a rest =>
    show dedupByAux id (a :: rest) [] ≠ []
    rw [dedupByAux, if_neg (List.not_mem_nil _)]
    exact List.cons_ne_nil _ _

theorem dominantWeather_isSome (l : List String) (h : l ≠ []) :
    ∃ m, dominantWeather l = some m := by
  obtain ⟨m, hm⟩ :=
    firstMaxBy_isSome (fun s => l.count s) _ (dedupBy_id_ne_nil l h)
  exact ⟨m, by rw [dominantWeather_eq_firstMaxBy, hm]⟩

theorem mem_summaryKeys (store : List Obs) (k : ℤ × String) :
    k ∈ summaryKeys store ↔ ∃ o ∈ store, summaryKey o = k := by
  rw [summaryKeys, mem_insSort, mem_dedupBy_id]
  constructor
  · intro hk
    obtain ⟨o, ho, heq⟩ := List.mem_map.mp hk
    exact ⟨o, ho, heq⟩
  · rintro ⟨o, ho, heq⟩
    exact heq ▸ List.mem_map_of_mem _ ho

theorem summaryKeys_nodup (store : List Obs) :
    (summaryKeys store).Nodup := by
  refine insSort_nodup _ _ ?_
  have h := dedupByAux_key_nodup (id : ℤ × String → ℤ × String)
    (store.map summaryKey) []
  simpa [dedupBy, List.map_id] using h

theorem calculate_nonempty (store : List Obs) (prev : List SummaryRow)
    (h : store ≠ []) :
    calculate_daily_summary store prev =
      (summaryKeys store).map (mkSummaryRow store) := by
  have hie : store.isEmpty = false := by
    cases store with
    | nil => exact absurd rfl h
    | cons a rest => rfl
  simp [calculate_daily_summary, hie]

/-- C4: for every (date, city) partition present in the store, the
recomputed summary has a row for that partition whose dominant condition
is the first condition of the partition, in insertion order, with maximal
occurrence count: the mode with ties broken by first appearance. -/
theorem dominant_condition_first_seen_mode (store : List Obs)
    (prev : List SummaryRow) (d : ℤ) (c : String)
    (h : ∃ o ∈ store, summaryKey o = (d, c)) :
    ∃ r ∈ calculate_daily_summary store prev, r.date = d ∧ r.city = c ∧
      dominantSpec
          ((store.filter (fun o => summaryKey o = (d, c))).map Obs.main) =
        some r.dominant_weather := by
  obtain ⟨o, ho, hk⟩ := h
  have hne : store ≠ [] := by
    intro hs
    subst hs
    simp at ho
  have hkmem : (d, c) ∈ summaryKeys store :=
    (mem_summaryKeys store (d, c)).mpr ⟨o, ho, hk⟩
  refine ⟨mkSummaryRow store (d, c), ?_, rfl, rfl, ?_⟩
  · rw [calculate_nonempty store prev hne]
    exact List.mem_map_of_mem _ hkmem
  · have hog : o ∈ store.filter (fun o => summaryKey o = (d, c)) :=
      List.mem_filter.mpr ⟨ho, by simpa using hk⟩
    have hgne :
        (store.filter (fun o => summaryKey o = (d, c))).map Obs.main ≠ [] := by
      intro hnil
      rw [List.map_eq_nil_iff] at hnil
      rw [hnil] at hog
      simp at hog
    obtain ⟨m, hm⟩ := dominantWeather_isSome _ hgne
    rw [← dominantWeather_eq_dominantSpec, hm]
    show _ = some ((dominantWeather
      ((store.filter (fun o => summaryKey o = (d, c))).map Obs.main)).getD "")
    rw [hm]
    rfl

/-- C4 witness: with conditions [Rain, Clouds] tied at one occurrence
each, the dominant condition of the summary is Rain, the first seen. -/
theorem dominant_condition_first_seen_mode_witness :
    (∃ o ∈ c4Store, summaryKey o = (0, "Delhi")) ∧
      (∃ r ∈ calculate_daily_summary c4Store [], r.date = 0 ∧
        r.city = "Delhi" ∧
        dominantSpec
            ((c4Store.filter (fun o => summaryKey o = (0, "Delhi"))).map
              Obs.main) = some r.dominant_weather) ∧
      dominantSpec ["Rain", "Clouds"] = some "Rain" ∧
      (calculate_daily_summary c4Store []).map SummaryRow.dominant_weather =
        ["Rain"] :=
  ⟨by decide,
    dominant_condition_first_seen_mode c4Store [] 0 "Delhi" (by decide),
    by decide, by decide⟩

/-! ### The per-partition statistics -/
theorem foldl_max_le (l : List ℚ) (a : ℚ) :
    a ≤ l.foldl max a ∧ ∀ x ∈ l, x ≤ l.foldl max a := by
  induction l generalizing a with
  | nil => simp
  | cons b rest ih =>
    simp only [List.foldl_cons]
    obtain ⟨h1, h2⟩ := ih (max a b)
    refine ⟨le_trans (le_max_left a b) h1, ?_⟩
    intro x hx
    rcases List.mem_cons.mp hx with rfl | hx'
    · exact le_trans (le_max_right a x) h1
    · exact h2 x hx'

theorem foldl_max_mem (l : List ℚ) (a : ℚ) :
    l.foldl max a = a ∨ l.foldl max a ∈ l := by
  induction l generalizing a with
  | nil => simp
  | cons b rest ih =>
    simp only [List.foldl_cons]
    rcases ih (max a b) with h | h
    · rcases max_cases a b with ⟨hm, -⟩ | ⟨hm, -⟩
      · exact Or.inl (by rw [h, hm])
      · exact Or.inr (by rw [h, hm]; exact List.mem_cons_self _ _)
    · exact Or.inr (List.mem_cons_of_mem _ h)

theorem foldl_min_le (l : List ℚ) (a : ℚ) :
    l.foldl min a ≤ a ∧ ∀ x ∈ l, l.foldl min a ≤ x := by
  induction l generalizing a with
  | nil => simp
  | cons b rest ih =>
    simp only [List.foldl_cons]
    obtain ⟨h1, h2⟩ := ih (min a b)
    refine ⟨le_trans h1 (min_le_left a b), ?_⟩
    intro x hx
    rcases List.mem_cons.mp hx with rfl | hx'
    · exact le_trans h1 (min_le_right a x)
    · exact h2 x hx'

theorem foldl_min_mem (l : List ℚ) (a : ℚ) :
    l.foldl min a = a ∨ l.foldl min a ∈ l := by
  induction l generalizing a with
  | nil => simp
  | cons b rest ih =>
    simp only [List.foldl_cons]
    rcases ih (min a b) with h | h
    · rcases min_cases a b with ⟨hm, -⟩ | ⟨hm, -⟩
      · exact Or.inl (by rw [h, hm])
      · exact Or.inr (by rw [h, hm]; exact List.mem_cons_self _ _)
    · exact Or.inr (List.mem_cons_of_mem _ h)

theorem qmax_spec (l : List ℚ) (h : l ≠ []) :
    qmax l ∈ l ∧ ∀ x ∈ l, x ≤ qmax l := by
  cases l with
  | nil => exact absurd rfl h
  | cons a rest =>
    rw [qmax]
    obtain ⟨h1, h2⟩ := foldl_max_le rest a
    constructor
    · rcases foldl_max_mem rest a with he | he
      · rw [he]
        exact List.mem_cons_self _ _
      · exact List.mem_cons_of_mem _ he
    · intro x hx
      rcases List.mem_cons.mp hx with rfl | hx'
      · exact h1
      · exact h2 x hx'

theorem qmin_spec (l : List ℚ) (h : l ≠ []) :
    qmin l ∈ l ∧ ∀ x ∈ l, qmin l ≤ x := by
  cases l with
  | nil => exact absurd rfl h
  | cons a rest =>
    rw [qmin]
    obtain ⟨h1, h2⟩ := foldl_min_le rest a
    constructor
    · rcases foldl_min_mem rest a with he | he
      · rw [he]
        exact List.mem_cons_self _ _
      · exact List.mem_cons_of_mem _ he
    · intro x hx
      rcases List.mem_cons.mp hx with rfl | hx'
      · exact h1
      · exact h2 x hx'

theorem qavg_spec (l : List ℚ) (h : l ≠ []) :
    qavg l * (l.length : ℚ) = l.sum := by
  rw [qavg, div_mul_cancel₀]
  exact Nat.cast_ne_zero.mpr fun hc => h (List.length_eq_zero.mp hc)

theorem filter_map_unique {α β : Type} (f : α → β) (p : β → Bool)
    (l : List α) (a : α) (hmem : a ∈ l) (hnd : l.Nodup)
    (hp : p (f a) = true) (hq : ∀ b ∈ l, p (f b) = true → b = a) :
    (l.map f).filter p = [f a] := by
  induction l with
  | nil => simp at hmem
  | cons x rest ih =>
    rcases List.mem_cons.mp hmem with rfl | hmem'
    · rw [List.map_cons, List.filter_cons_of_pos hp]
      have hz : (rest.map f).filter p = [] := by
        rw [List.filter_eq_nil_iff]
        intro b hb hpb
        obtain ⟨y, hy, rfl⟩ := List.mem_map.mp hb
        have hya := hq y (List.mem_cons_of_mem _ hy) hpb
        subst hya
        exact (List.nodup_cons.mp hnd).1 hy
      rw [hz]
    · have hxa : x ≠ a := fun he =>
        (List.nodup_cons.mp hnd).1 (he ▸ hmem')
      have hpx : p (f x) = false := by
        cases hpx : p (f x) with
        | false => rfl
        | true => exact absurd (hq x (List.mem_cons_self _ _) hpx) hxa
      rw [List.map_cons, List.filter_cons_of_neg (by simp [hpx])]
      exact ih hmem' (List.nodup_cons.mp hnd).2
        fun b hb hpb => hq b (List.mem_cons_of_mem _ hb) hpb

/-- C5: every (date, city) partition present in the store yields exactly
one summary row, whose avg_temp, max_temp, min_temp are the mean, maximum
and minimum of the partition temperatures, and whose avg_humidity and
avg_wind_speed are the partition means of those columns. -/
theorem daily_summary_stats (store : List Obs) (prev : List SummaryRow)
    (d : ℤ) (c : String)
    (h : ∃ o ∈ store, summaryKey o = (d, c)) :
    ∃ r, (calculate_daily_summary store prev).filter
          (fun r2 => r2.date = d ∧ r2.city = c) = [r] ∧
      r.avg_temp *
          (((store.filter (fun o => summaryKey o = (d, c))).map
            Obs.temp).length : ℚ) =
        ((store.filter (fun o => summaryKey o = (d, c))).map Obs.temp).sum ∧
      r.max_temp ∈
        (store.filter (fun o => summaryKey o = (d, c))).map Obs.temp ∧
      (∀ x ∈ (store.filter (fun o => summaryKey o = (d, c))).map Obs.temp,
        x ≤ r.max_temp) ∧
      r.min_temp ∈
        (store.filter (fun o => summaryKey o = (d, c))).map Obs.temp ∧
      (∀ x ∈ (store.filter (fun o => summaryKey o = (d, c))).map Obs.temp,
        r.min_temp ≤ x) ∧
      r.avg_humidity *
          (((store.filter (fun o => summaryKey o = (d, c))).map
            Obs.humidity).length : ℚ) =
        ((store.filter (fun o => summaryKey o = (d, c))).map
          Obs.humidity).sum ∧
      r.avg_wind_speed *
          (((store.filter (fun o => summaryKey o = (d, c))).map
            Obs.wind_speed).length : ℚ) =
        ((store.filter (fun o => summaryKey o = (d, c))).map
          Obs.wind_speed).sum := by
  obtain ⟨o, ho, hk⟩ := h
  have hne : store ≠ [] := by
    intro hs
    subst hs
    simp at ho
  have hkmem : (d, c) ∈ summaryKeys store :=
    (mem_summaryKeys store (d, c)).mpr ⟨o, ho, hk⟩
  have hog : o ∈ store.filter (fun o => summaryKey o = (d, c)) :=
    List.mem_filter.mpr ⟨ho, by simpa using hk⟩
  have hgne : store.filter (fun o => summaryKey o = (d, c)) ≠ [] := by
    intro hnil
    rw [hnil] at hog
    simp at hog
  have htne :
      (store.filter (fun o => summaryKey o = (d, c))).map Obs.temp ≠ [] := by
    simpa [List.map_eq_nil_iff] using hgne
  have hhne :
      (store.filter (fun o => summaryKey o = (d, c))).map Obs.humidity
        ≠ [] := by
    simpa [List.map_eq_nil_iff] using hgne
  have hwne :
      (store.filter (fun o => summaryKey o = (d, c))).map Obs.wind_speed
        ≠ [] := by
    simpa [List.map_eq_nil_iff] using hgne
  refine ⟨mkSummaryRow store (d, c), ?_, ?_, ?_, ?_, ?_, ?_, ?_, ?_⟩
  · rw [calculate_nonempty store prev hne]
    refine filter_map_unique (mkSummaryRow store) _ (summaryKeys store)
      (d, c) hkmem (summaryKeys_nodup store) (by simp [mkSummaryRow]) ?_
    intro k hkmem2 hpk
    simp only [decide_eq_true_eq] at hpk
    have h1 : (mkSummaryRow store k).date = k.1 := rfl
    have h2 : (mkSummaryRow store k).city = k.2 := rfl
    rw [h1, h2] at hpk
    exact Prod.ext hpk.1 hpk.2
  · exact qavg_spec _ htne
  · exact (qmax_spec _ htne).1
  · exact (qmax_spec _ htne).2
  · exact (qmin_spec _ htne).1
  · exact (qmin_spec _ htne).2
  · exact qavg_spec _ hhne
  · exact qavg_spec _ hwne

/-- C5 witness: the statistics statement applied to the Delhi store with
temperatures [30, 35, 40]; the aggregation functions on that list give
mean 35, max 40, min 30. -/
theorem daily_summary_stats_witness :
    (∃ o ∈ c5Store, summaryKey o = (0, "Delhi")) ∧
      (∃ r, (calculate_daily_summary c5Store []).filter
            (fun r2 => r2.date = 0 ∧ r2.city = "Delhi") = [r] ∧
        r.avg_temp *
            (((c5Store.filter (fun o => summaryKey o = (0, "Delhi"))).map
              Obs.temp).length : ℚ) =
          ((c5Store.filter (fun o => summaryKey o = (0, "Delhi"))).map
            Obs.temp).sum ∧
        r.max_temp ∈
          (c5Store.filter (fun o => summaryKey o = (0, "Delhi"))).map
            Obs.temp ∧
        (∀ x ∈ (c5Store.filter (fun o => summaryKey o = (0, "Delhi"))).map
            Obs.temp, x ≤ r.max_temp) ∧
        r.min_temp ∈
          (c5Store.filter (fun o => summaryKey o = (0, "Delhi"))).map
            Obs.temp ∧
        (∀ x ∈ (c5Store.filter (fun o => summaryKey o = (0, "Delhi"))).map
            Obs.temp, r.min_temp ≤ x) ∧
        r.avg_humidity *
            (((c5Store.filter (fun o => summaryKey o = (0, "Delhi"))).map
              Obs.humidity).length : ℚ) =
          ((c5Store.filter (fun o => summaryKey o = (0, "Delhi"))).map
            Obs.humidity).sum ∧
        r.avg_wind_speed *
            (((c5Store.filter (fun o => summaryKey o = (0, "Delhi"))).map
              Obs.wind_speed).length : ℚ) =
          ((c5Store.filter (fun o => summaryKey o = (0, "Delhi"))).map
            Obs.wind_speed).sum) ∧
      qavg [30, 35, 40] = 35 ∧ qmax [30, 35, 40] = 40 ∧
      qmin [30, 35, 40] = 30 :=
  ⟨by decide, daily_summary_stats c5Store [] 0 "Delhi" (by decide),
    by norm_num [qavg],
    by norm_num [qmax, List.foldl_cons, List.foldl_nil, max_def],
    by norm_num [qmin, List.foldl_cons, List.foldl_nil, min_def]⟩

end WeatherApp
